import Mathlib

/-!
Verification of the pyloupe protocol/transport/device stack.

Shallow embedding of the Python sources of ammohq/loupedeck:
bytes are modelled as lists of naturals, Python dicts keyed by small
integers as association lists, and raising an exception as returning an
error value of an Except type.  Each definition mirrors one Python
function; the theorems at the end of the file settle the specification
claims against these definitions.
-/

-- ==========================================================================
-- Frame parser (pyloupe/parser.py, class MagicByteLengthParser)
-- ==========================================================================

/-- Index of the first occurrence of the byte value in the list, mirroring
Python bytes.find for a single-byte needle (except that Python returns -1
when absent, modelled here as none). -/
def byteIndexOf (delim : ℕ) : List ℕ → Option ℕ
  | [] => none
  | x :: xs => if x = delim then some 0 else (byteIndexOf delim xs).map (· + 1)

/-- One pass of the while loop of MagicByteLengthParser.feed, with the
continuation of the loop abstracted as rec: find the magic byte; if absent,
or the length byte is missing, or fewer than the declared number of payload
bytes follow, stop and keep the data buffered; otherwise extract the payload
slice data[position+2 : position+2+length] and continue on the rest. -/
def feedStep (delim : ℕ) (data : List ℕ)
    (rec : List ℕ → List (List ℕ) × List ℕ) : List (List ℕ) × List ℕ :=
  match byteIndexOf delim data with
  | none => ([], data)
  | some position =>
    if data.length < position + 2 then ([], data)
    else if data.length < position + data.getD (position + 1) 0 + 2 then ([], data)
    else
      ((data.drop (position + 2)).take (data.getD (position + 1) 0) ::
         (rec (data.drop (position + data.getD (position + 1) 0 + 2))).1,
       (rec (data.drop (position + data.getD (position + 1) 0 + 2))).2)

/-- Fuel-indexed iteration of feedStep; the fuel only forces termination and
feedLoop below always supplies enough. -/
def feedGo (delim : ℕ) : ℕ → List ℕ → List (List ℕ) × List ℕ
  | 0, data => ([], data)
  | fuel + 1, data => feedStep delim data (feedGo delim fuel)

/-- Body of MagicByteLengthParser.feed on the concatenation of the stored
buffer and the new chunk: returns the complete packets found and the bytes
that remain buffered. -/
def feedLoop (delim : ℕ) (data : List ℕ) : List (List ℕ) × List ℕ :=
  feedGo delim data.length data

/-- Parser state: the configured magic byte and the buffered leftover bytes
(MagicByteLengthParser.__init__ stores the delimiter and an empty buffer). -/
structure MagicByteLengthParser where
  delimiter : ℕ
  buffer : List ℕ
  deriving DecidableEq, Repr

/-- MagicByteLengthParser.feed: prepend the stored buffer to the chunk, run
the extraction loop, store the leftover back into the buffer and return the
complete packets. -/
def MagicByteLengthParser.feed (p : MagicByteLengthParser) (chunk : List ℕ) :
    List (List ℕ) × MagicByteLengthParser :=
  let r := feedLoop p.delimiter (p.buffer ++ chunk)
  (r.1, { p with buffer := r.2 })

/-- MagicByteLengthParser.flush: return the buffered bytes (if any) as one
packet and clear the buffer. -/
def MagicByteLengthParser.flush (p : MagicByteLengthParser) :
    List (List ℕ) × MagicByteLengthParser :=
  (if p.buffer = [] then [] else [p.buffer], { p with buffer := [] })

/-- Feeding a list of chunks one at a time to a fresh parser, concatenating
the packets returned by the successive feed calls. -/
def runFeeds (delim : ℕ) (chunks : List (List ℕ)) : List (List ℕ) × List ℕ :=
  chunks.foldl
    (fun acc chunk =>
      let r := feedLoop delim (acc.2 ++ chunk)
      (acc.1 ++ r.1, r.2))
    ([], [])

/-- Wire image of a list of frames: each payload is preceded by the magic
byte and its length byte. -/
def encodeFrames (delim : ℕ) (ps : List (List ℕ)) : List ℕ :=
  (ps.map (fun p => delim :: p.length :: p)).flatten

/-- Well-formed frame payloads: each fits one length byte and consists of
byte values. -/
def WellFormedFrames (ps : List (List ℕ)) : Prop :=
  ∀ p ∈ ps, p.length ≤ 255 ∧ ∀ b ∈ p, b ≤ 255

instance : DecidablePred WellFormedFrames := by
  intro ps
  unfold WellFormedFrames
  infer_instance

-- ==========================================================================
-- Device protocol engine (pyloupe/device.py, class LoupedeckDevice)
-- ==========================================================================

/-- Observable internal actions of LoupedeckDevice.on_receive and its
handlers: events emitted by on_button and on_rotate, and the firing of a
pending-transaction continuation (resolver). -/
inductive DeviceEffect where
  | down (id : Option ℕ)
  | up (id : Option ℕ)
  | rotate (id : Option ℕ) (delta : ℤ)
  | resolve (transaction : ℕ) (payload : List ℕ)
  deriving DecidableEq, Repr

/-- Uncaught Python exceptions of the modelled paths: IndexError from
indexing a too-short bytes object. -/
inductive RecvErr where
  | indexError
  deriving DecidableEq, Repr

/-- CommandError raised on a send that cannot proceed. -/
inductive DevErr where
  | commandError
  deriving DecidableEq, Repr

/-- Connection object as the device sees it: whether is_ready() holds and
whether the device's on_receive is still registered for message events. -/
structure ConnModel where
  ready : Bool
  msgAttached : Bool
  deriving DecidableEq, Repr

/-- State of a LoupedeckDevice (the fields of device.py touched by connect,
close, send and on_receive).  The BUTTON_PRESS and KNOB_ROTATE command codes
and the BUTTONS table come from constants.py, which is not under src; they
are modelled from the spec as per-device data (a fixed table mapping
hardware bytes to logical ids). -/
structure DeviceModel where
  connection : Option ConnModel
  transactionId : ℕ
  pending : List ℕ
  reconnectTask : Bool
  shouldReconnect : Bool
  buttonPressCode : ℕ
  knobRotateCode : ℕ
  buttonMapping : List (ℕ × ℕ)
  buttons : List (ℕ × ℕ)
  deriving DecidableEq, Repr

/-- Python dict.get on a dict with natural keys, as an association list. -/
def assocLookup (l : List (ℕ × ℕ)) (k : ℕ) : Option ℕ :=
  (l.find? (fun e => e.1 == k)).map (·.2)

/-- Signed interpretation of one byte (struct.unpack of format b). -/
def toSignedByte (b : ℕ) : ℤ :=
  if b % 256 < 128 then (b % 256 : ℤ) else (b % 256 : ℤ) - 256

/-- LoupedeckDevice.on_button: ignore payloads shorter than 2 bytes;
otherwise look the hardware id up in the custom mapping, falling back to the
BUTTONS table, and emit a down event when byte 1 is 0, else an up event. -/
def DeviceModel.on_button (d : DeviceModel) (data : List ℕ) : List DeviceEffect :=
  if data.length < 2 then []
  else
    let bid :=
      match assocLookup d.buttonMapping (data.getD 0 0) with
      | some v => some v
      | none => assocLookup d.buttons (data.getD 0 0)
    if data.getD 1 0 = 0 then [.down bid] else [.up bid]

/-- LoupedeckDevice.on_rotate: ignore payloads shorter than 2 bytes;
otherwise emit a rotate event with the knob id and the signed byte delta. -/
def DeviceModel.on_rotate (d : DeviceModel) (data : List ℕ) : List DeviceEffect :=
  if data.length < 2 then []
  else [.rotate (assocLookup d.buttons (data.getD 0 0))
    (toSignedByte (data.getD 1 0))]

/-- Payload slice data[3:msg_length] taken by LoupedeckDevice.on_receive,
where msg_length is byte 0 of the message. -/
def recvPayload (data : List ℕ) : List ℕ :=
  (data.take (data.headD 0)).drop 3

/-- LoupedeckDevice.on_receive: an empty message returns at once; a
non-empty message has bytes 0, 1, 2 read as declared length, command code
and transaction id, so one or two bytes raise IndexError.  The handler
table is the dict built in __init__ from the BUTTON_PRESS and KNOB_ROTATE
codes (the later insertion wins if the codes coincide); an absent command
code is ignored.  Then the transaction id is popped from
pending_transactions and, when present, its resolver fires with the
payload. -/
def DeviceModel.on_receive (d : DeviceModel) (data : List ℕ) :
    Except RecvErr (DeviceModel × List DeviceEffect) :=
  match data with
  | [] => .ok (d, [])
  | [_] => .error .indexError
  | [_, _] => .error .indexError
  | _msgLength :: cmd :: transaction :: _ =>
    let payload := recvPayload data
    let effects :=
      if cmd = d.knobRotateCode then d.on_rotate payload
      else if cmd = d.buttonPressCode then d.on_button payload
      else []
    if d.pending.contains transaction then
      .ok ({ d with pending := d.pending.erase transaction },
        effects ++ [.resolve transaction payload])
    else .ok (d, effects)

/-- Transaction id allocation of LoupedeckDevice.send:
(transaction_id + 1) % 256 or 1. -/
def nextTransactionId (t : ℕ) : ℕ :=
  if (t + 1) % 256 = 0 then 1 else (t + 1) % 256

/-- LoupedeckDevice.send: raise CommandError (touching nothing and writing
nothing) unless a connection exists and is_ready() holds; otherwise advance
the transaction id, build the 3-byte header
(min(3 + len(data), 0xFF), command, transaction id) followed by the
payload, write that packet to the connection and return the id.  The result
lists the packets written to the channel. -/
def DeviceModel.send (d : DeviceModel) (command : ℕ) (data : List ℕ) :
    DeviceModel × List (List ℕ) × Except DevErr ℕ :=
  match d.connection with
  | none => (d, [], .error .commandError)
  | some c =>
    if c.ready then
      ({ d with transactionId := nextTransactionId d.transactionId },
        [[min (3 + data.length) 0xFF, command, nextTransactionId d.transactionId]
          ++ data],
        .ok (nextTransactionId d.transactionId))
    else (d, [], .error .commandError)

/-- LoupedeckDevice.close: cancel the reconnect task, disable reconnection,
detach the connection's handlers, close it and clear the reference.  The
pending_transactions dict is not touched by close (device.py lines
177-211). -/
def DeviceModel.close (d : DeviceModel) : DeviceModel :=
  { d with reconnectTask := false, shouldReconnect := false, connection := none }

/-- Delivery of one transport message to the device: on_receive runs only
while a connection exists and the device's message handler is attached to
it. -/
def DeviceModel.deliver (d : DeviceModel) (data : List ℕ) :
    Except RecvErr (DeviceModel × List DeviceEffect) :=
  match d.connection with
  | none => .ok (d, [])
  | some c => if c.msgAttached then d.on_receive data else .ok (d, [])

/-- LoupedeckDevice.set_brightness byte computation:
max(0, min(MAX_BRIGHTNESS, round(value * MAX_BRIGHTNESS))).
MAX_BRIGHTNESS lives in constants.py, which is not under src; it is the
parameter M here (the device's integer brightness maximum).  The float
input is modelled as a rational and Python round as round-half-to-even. -/
def pyRound (q : ℚ) : ℤ :=
  if q - ⌊q⌋ < 1 / 2 then ⌊q⌋
  else if 1 / 2 < q - ⌊q⌋ then ⌊q⌋ + 1
  else if ⌊q⌋ % 2 = 0 then ⌊q⌋ else ⌊q⌋ + 1

/-- Brightness byte encoded by LoupedeckDevice.set_brightness. -/
def brightnessByte (M : ℕ) (value : ℚ) : ℤ :=
  max 0 (min (M : ℤ) (pyRound (value * M)))

-- ==========================================================================
-- Transport connections (pyloupe/connections/serial.py and ws.py)
-- ==========================================================================

/-- Underlying pyserial port object; only its existence matters to send. -/
structure SerialPort where
  is_open : Bool
  deriving DecidableEq, Repr

/-- Big-endian 4-byte encoding, len(buff).to_bytes(4, "big"). -/
def beBytes4 (n : ℕ) : List ℕ :=
  [n / 2 ^ 24 % 256, n / 2 ^ 16 % 256, n / 2 ^ 8 % 256, n % 256]

/-- Header prepended by LoupedeckSerialConnection.send in the non-raw case:
a 14-byte extended header (magic, 0xFF sentinel, the big-endian length at
bytes 6-9) for payloads over 255 bytes, else a 6-byte compact header. -/
def serialPrep (n : ℕ) : List ℕ :=
  if 255 < n then [0x82, 0xFF, 0, 0, 0, 0] ++ beBytes4 n ++ [0, 0, 0, 0]
  else [0x82, 0x80 + n, 0, 0, 0, 0]

/-- LoupedeckSerialConnection.send: raises CommandError when there is no
connection object; otherwise writes the header (unless raw) followed by the
payload.  The ok value lists the write calls made on the port. -/
def serialSend (connection : Option SerialPort) (buff : List ℕ) (raw : Bool) :
    Except DevErr (List (List ℕ)) :=
  match connection with
  | none => .error .commandError
  | some _ => if raw then .ok [buff] else .ok [serialPrep buff.length, buff]

/-- LoupedeckWSConnection.send: when is_ready() is false it logs a warning
and returns normally, writing nothing; otherwise it writes the data. -/
def wsSend (ready : Bool) (data : List ℕ) : Except DevErr (List (List ℕ)) :=
  if ready then .ok [data] else .ok []

-- ==========================================================================
-- Device model registry (device.py, get_target of the hardware variants)
-- ==========================================================================

/-- Names of the screen regions declared by the variants. -/
inductive ScreenName where
  | left
  | center
  | right
  | knob
  deriving DecidableEq, Repr

/-- Result of get_target: the empty dict, a screen, or a screen with a
linearized key. -/
inductive TargetRes where
  | empty
  | screen (s : ScreenName)
  | screenKey (s : ScreenName) (key : ℤ)
  deriving DecidableEq, Repr

namespace LoupedeckLive

def key_size : ℤ := 90

def columns : ℤ := 4

def visibleX : ℤ × ℤ := (0, 480)

def leftWidth : ℤ := 60

def centerWidth : ℤ := 360

/-- LoupedeckLive.get_target: left of the left strip goes to the left
screen, at or beyond left+center width to the right screen, otherwise the
center grid key, with row and column truncated quotients by the key size
(Python int() truncates toward zero, Int.tdiv). -/
def get_target (x y : ℤ) : TargetRes :=
  if x < leftWidth then TargetRes.screen ScreenName.left
  else if leftWidth + centerWidth ≤ x then TargetRes.screen ScreenName.right
  else
    TargetRes.screenKey ScreenName.center
      (y.tdiv key_size * columns + (x - leftWidth).tdiv key_size)

end LoupedeckLive

namespace LoupedeckCT

/-- LoupedeckCT.get_target: source id 0 goes to the knob screen before any
grid computation; otherwise defer to the LoupedeckLive rule. -/
def get_target (x y : ℤ) (id : Option ℤ) : TargetRes :=
  if id = some 0 then TargetRes.screen ScreenName.knob
  else LoupedeckLive.get_target x y

end LoupedeckCT

namespace LoupedeckLiveS

def key_size : ℤ := 90

def columns : ℤ := 5

def visibleX : ℤ × ℤ := (15, 465)

/-- LoupedeckLiveS.get_target: x outside visibleX yields the empty dict;
otherwise the center grid key from truncated division by the key size. -/
def get_target (x y : ℤ) : TargetRes :=
  if x < visibleX.1 ∨ visibleX.2 ≤ x then TargetRes.empty
  else
    TargetRes.screenKey ScreenName.center
      (y.tdiv key_size * columns + (x - visibleX.1).tdiv key_size)

end LoupedeckLiveS

-- ==========================================================================
-- Example device states used by concrete instantiations
-- ==========================================================================

/-- Freshly connected device with a ready connection and no pending
transactions. -/
def readyDevice : DeviceModel :=
  { connection := some { ready := true, msgAttached := true }
    transactionId := 0
    pending := []
    reconnectTask := false
    shouldReconnect := true
    buttonPressCode := 0
    knobRotateCode := 1
    buttonMapping := []
    buttons := [] }

/-- Device whose connection exists but whose is_ready() is false. -/
def notReadyDevice : DeviceModel :=
  { readyDevice with connection := some { ready := false, msgAttached := true } }

/-- Connected device with one pending transaction, id 5. -/
def pendingDevice : DeviceModel :=
  { readyDevice with transactionId := 7, pending := [5], reconnectTask := true }

lemma byteIndexOf_lt_length {delim : ℕ} :
    ∀ {data : List ℕ} {i : ℕ}, byteIndexOf delim data = some i → i < data.length := by
  intro data
  induction data with
  | nil => intro i h; simp [byteIndexOf] at h
  | cons x xs ih =>
    intro i h
    rw [byteIndexOf] at h
    by_cases hx : x = delim
    · rw [if_pos hx] at h
      injection h with h
      subst h
      simp
    · rw [if_neg hx] at h
      cases hbi : byteIndexOf delim xs with
      | none => rw [hbi] at h; simp at h
      | some j =>
        rw [hbi] at h
        simp only [Option.map_some'] at h
        injection h with h
        subst h
        have := ih hbi
        simp only [List.length_cons]
        omega

lemma feedGo_nil (delim fuel : ℕ) : feedGo delim fuel [] = ([], []) := by
  cases fuel with
  | zero => rfl
  | succ f => simp [feedGo, feedStep, byteIndexOf]

/-- Fuel adequacy: any fuel at least the length of the data gives the same
result. -/
lemma feedGo_fuel (delim : ℕ) :
    ∀ (f₁ : ℕ) {f₂ : ℕ} {data : List ℕ}, data.length ≤ f₁ → data.length ≤ f₂ →
      feedGo delim f₁ data = feedGo delim f₂ data := by
  intro f₁
  induction f₁ with
  | zero =>
    intro f₂ data h1 _
    have : data = [] := List.length_eq_zero.mp (Nat.le_zero.mp h1)
    subst this
    rw [feedGo_nil, feedGo_nil]
  | succ f ih =>
    intro f₂ data h1 h2
    cases data with
    | nil => rw [feedGo_nil, feedGo_nil]
    | cons x xs =>
      cases f₂ with
      | zero => simp at h2
      | succ g =>
        show feedStep delim (x :: xs) (feedGo delim f)
            = feedStep delim (x :: xs) (feedGo delim g)
        unfold feedStep
        cases hidx : byteIndexOf delim (x :: xs) with
        | none => rfl
        | some position =>
          simp only
          by_cases hshort : (x :: xs).length < position + 2
          · rw [if_pos hshort, if_pos hshort]
          · rw [if_neg hshort, if_neg hshort]
            by_cases hfull :
                (x :: xs).length < position + (x :: xs).getD (position + 1) 0 + 2
            · rw [if_pos hfull, if_pos hfull]
            · rw [if_neg hfull, if_neg hfull]
              have hrec : feedGo delim f
                    ((x :: xs).drop (position + (x :: xs).getD (position + 1) 0 + 2))
                  = feedGo delim g
                    ((x :: xs).drop (position + (x :: xs).getD (position + 1) 0 + 2)) := by
                apply ih
                · simp only [List.length_drop, List.length_cons] at h1 ⊢
                  omega
                · simp only [List.length_drop, List.length_cons] at h2 ⊢
                  omega
              rw [hrec]

/-- Unfolding rule for feedLoop: it is a fixpoint of the loop body of
MagicByteLengthParser.feed. -/
lemma feedLoop_eq (delim : ℕ) (data : List ℕ) :
    feedLoop delim data = feedStep delim data (feedLoop delim) := by
  unfold feedLoop
  cases data with
  | nil =>
    rw [feedGo_nil]
    simp [feedStep, byteIndexOf]
  | cons x xs =>
    show feedStep delim (x :: xs) (feedGo delim xs.length) = _
    unfold feedStep
    cases hidx : byteIndexOf delim (x :: xs) with
    | none => rfl
    | some position =>
      simp only
      by_cases hshort : (x :: xs).length < position + 2
      · rw [if_pos hshort, if_pos hshort]
      · rw [if_neg hshort, if_neg hshort]
        by_cases hfull :
            (x :: xs).length < position + (x :: xs).getD (position + 1) 0 + 2
        · rw [if_pos hfull, if_pos hfull]
        · rw [if_neg hfull, if_neg hfull]
          have hrec : feedGo delim xs.length
                ((x :: xs).drop (position + (x :: xs).getD (position + 1) 0 + 2))
              = feedGo delim
                ((x :: xs).drop (position + (x :: xs).getD (position + 1) 0 + 2)).length
                ((x :: xs).drop (position + (x :: xs).getD (position + 1) 0 + 2)) := by
            apply feedGo_fuel
            · simp only [List.length_drop, List.length_cons]
              omega
            · exact le_rfl
          rw [hrec]

lemma feedLoop_nil (delim : ℕ) : feedLoop delim [] = ([], []) := rfl

lemma feedLoop_of_none {delim : ℕ} {data : List ℕ}
    (h : byteIndexOf delim data = none) : feedLoop delim data = ([], data) := by
  rw [feedLoop_eq]
  unfold feedStep
  rw [h]

lemma feedLoop_of_short {delim : ℕ} {data : List ℕ} {i : ℕ}
    (h : byteIndexOf delim data = some i) (h2 : data.length < i + 2) :
    feedLoop delim data = ([], data) := by
  rw [feedLoop_eq]
  unfold feedStep
  rw [h]
  simp only
  rw [if_pos h2]

lemma feedLoop_of_incomplete {delim : ℕ} {data : List ℕ} {i : ℕ}
    (h : byteIndexOf delim data = some i) (h2 : ¬ data.length < i + 2)
    (h3 : data.length < i + data.getD (i + 1) 0 + 2) :
    feedLoop delim data = ([], data) := by
  rw [feedLoop_eq]
  unfold feedStep
  rw [h]
  simp only
  rw [if_neg h2, if_pos h3]

lemma feedLoop_of_extract {delim : ℕ} {data : List ℕ} {i : ℕ}
    (h : byteIndexOf delim data = some i) (h2 : ¬ data.length < i + 2)
    (h3 : ¬ data.length < i + data.getD (i + 1) 0 + 2) :
    feedLoop delim data =
      ((data.drop (i + 2)).take (data.getD (i + 1) 0)
          :: (feedLoop delim (data.drop (i + data.getD (i + 1) 0 + 2))).1,
        (feedLoop delim (data.drop (i + data.getD (i + 1) 0 + 2))).2) := by
  rw [feedLoop_eq]
  unfold feedStep
  rw [h]
  simp only
  rw [if_neg h2, if_neg h3]

lemma byteIndexOf_append_some {delim : ℕ} :
    ∀ {a : List ℕ} (b : List ℕ) {i : ℕ}, byteIndexOf delim a = some i →
      byteIndexOf delim (a ++ b) = some i := by
  intro a
  induction a with
  | nil => intro b i h; simp [byteIndexOf] at h
  | cons x xs ih =>
    intro b i h
    rw [byteIndexOf] at h
    rw [List.cons_append, byteIndexOf]
    by_cases hx : x = delim
    · rw [if_pos hx] at h ⊢
      exact h
    · rw [if_neg hx] at h ⊢
      cases hbi : byteIndexOf delim xs with
      | none => rw [hbi] at h; simp at h
      | some j =>
        rw [hbi] at h
        rw [ih b hbi]
        exact h

lemma getD_append_left {a b : List ℕ} {n : ℕ} (h : n < a.length) :
    (a ++ b).getD n 0 = a.getD n 0 := by
  simp [List.getD_eq_getElem?_getD, List.getElem?_append_left h]

/-- Incrementality of the feed loop: running it on extended input is the
same as running it on the original input and then resuming from the
leftover with the new bytes appended. -/
lemma feedLoop_append (delim : ℕ) (a b : List ℕ) :
    feedLoop delim (a ++ b)
      = ((feedLoop delim a).1 ++ (feedLoop delim ((feedLoop delim a).2 ++ b)).1,
          (feedLoop delim ((feedLoop delim a).2 ++ b)).2) := by
  have main : ∀ (n : ℕ) (a b : List ℕ), a.length ≤ n →
      feedLoop delim (a ++ b)
        = ((feedLoop delim a).1 ++ (feedLoop delim ((feedLoop delim a).2 ++ b)).1,
            (feedLoop delim ((feedLoop delim a).2 ++ b)).2) := by
    intro n
    induction n with
    | zero =>
      intro a b ha
      have : a = [] := List.length_eq_zero.mp (Nat.le_zero.mp ha)
      subst this
      rw [feedLoop_nil]
      simp only [List.nil_append]
    | succ m ih =>
      intro a b ha
      cases hidx : byteIndexOf delim a with
      | none =>
        rw [feedLoop_of_none hidx]
        simp only [List.nil_append]
      | some i =>
        by_cases h2 : a.length < i + 2
        · rw [feedLoop_of_short hidx h2]
          simp only [List.nil_append]
        · by_cases h3 : a.length < i + a.getD (i + 1) 0 + 2
          · rw [feedLoop_of_incomplete hidx h2 h3]
            simp only [List.nil_append]
          · have hi := byteIndexOf_lt_length hidx
            have hgd : (a ++ b).getD (i + 1) 0 = a.getD (i + 1) 0 :=
              getD_append_left (by omega)
            have h2ab : ¬ (a ++ b).length < i + 2 := by
              simp only [List.length_append]; omega
            have h3ab : ¬ (a ++ b).length < i + (a ++ b).getD (i + 1) 0 + 2 := by
              rw [hgd]; simp only [List.length_append]; omega
            rw [feedLoop_of_extract (byteIndexOf_append_some b hidx) h2ab h3ab]
            rw [feedLoop_of_extract hidx h2 h3]
            have hdrop2 : (a ++ b).drop (i + 2) = a.drop (i + 2) ++ b :=
              List.drop_append_of_le_length (by omega)
            have hdropL : (a ++ b).drop (i + a.getD (i + 1) 0 + 2)
                = a.drop (i + a.getD (i + 1) 0 + 2) ++ b :=
              List.drop_append_of_le_length (by omega)
            have htake : (a.drop (i + 2) ++ b).take (a.getD (i + 1) 0)
                = (a.drop (i + 2)).take (a.getD (i + 1) 0) :=
              List.take_append_of_le_length (by rw [List.length_drop]; omega)
            rw [hgd, hdrop2, htake, hdropL]
            have ha2 : (a.drop (i + a.getD (i + 1) 0 + 2)).length ≤ m := by
              rw [List.length_drop]; omega
            rw [ih _ b ha2]
            simp [List.cons_append]
  exact main a.length a b le_rfl

/-- Quiescence: the leftover buffer the loop stops with produces no further
packet until more data arrives. -/
lemma feedLoop_leftover (delim : ℕ) (data : List ℕ) :
    feedLoop delim (feedLoop delim data).2 = ([], (feedLoop delim data).2) := by
  have main : ∀ (n : ℕ) (data : List ℕ), data.length ≤ n →
      feedLoop delim (feedLoop delim data).2 = ([], (feedLoop delim data).2) := by
    intro n
    induction n with
    | zero =>
      intro data h
      have : data = [] := List.length_eq_zero.mp (Nat.le_zero.mp h)
      subst this
      rw [feedLoop_nil]
      exact feedLoop_nil delim
    | succ m ih =>
      intro data h
      cases hidx : byteIndexOf delim data with
      | none =>
        rw [feedLoop_of_none hidx]
        exact feedLoop_of_none hidx
      | some i =>
        by_cases h2 : data.length < i + 2
        · rw [feedLoop_of_short hidx h2]
          exact feedLoop_of_short hidx h2
        · by_cases h3 : data.length < i + data.getD (i + 1) 0 + 2
          · rw [feedLoop_of_incomplete hidx h2 h3]
            exact feedLoop_of_incomplete hidx h2 h3
          · have hi := byteIndexOf_lt_length hidx
            rw [feedLoop_of_extract hidx h2 h3]
            apply ih
            rw [List.length_drop]
            omega
  exact main data.length data le_rfl

lemma encodeFrames_cons (delim : ℕ) (p : List ℕ) (ps : List (List ℕ)) :
    encodeFrames delim (p :: ps)
      = delim :: p.length :: (p ++ encodeFrames delim ps) := by
  simp [encodeFrames]

lemma byteIndexOf_self (delim : ℕ) (rest : List ℕ) :
    byteIndexOf delim (delim :: rest) = some 0 := by
  rw [byteIndexOf, if_pos rfl]

/-- Running the feed loop over the wire image of a list of frames yields
exactly those frames, in order, with an empty leftover buffer. -/
lemma feedLoop_encode (delim : ℕ) (ps : List (List ℕ)) :
    feedLoop delim (encodeFrames delim ps) = (ps, []) := by
  induction ps with
  | nil =>
    show feedLoop delim (([] : List (List ℕ)).map _).flatten = ([], [])
    simp only [List.map_nil, List.flatten_nil]
    exact feedLoop_nil delim
  | cons p ps ih =>
    rw [encodeFrames_cons]
    have hidx : byteIndexOf delim (delim :: p.length :: (p ++ encodeFrames delim ps))
        = some 0 := byteIndexOf_self _ _
    have hlen : (delim :: p.length :: (p ++ encodeFrames delim ps)).length
        = p.length + (encodeFrames delim ps).length + 2 := by
      simp only [List.length_cons, List.length_append]
    have hgd : (delim :: p.length :: (p ++ encodeFrames delim ps)).getD (0 + 1) 0
        = p.length := rfl
    have h2 : ¬ (delim :: p.length :: (p ++ encodeFrames delim ps)).length < 0 + 2 := by
      rw [hlen]; omega
    have h3 : ¬ (delim :: p.length :: (p ++ encodeFrames delim ps)).length
        < 0 + (delim :: p.length :: (p ++ encodeFrames delim ps)).getD (0 + 1) 0 + 2 := by
      rw [hlen, hgd]; omega
    rw [feedLoop_of_extract hidx h2 h3]
    have hdrop2 : (delim :: p.length :: (p ++ encodeFrames delim ps)).drop (0 + 2)
        = p ++ encodeFrames delim ps := rfl
    have htake : (p ++ encodeFrames delim ps).take p.length = p := by
      rw [List.take_append_of_le_length le_rfl, List.take_length]
    have hdropL : (delim :: p.length :: (p ++ encodeFrames delim ps)).drop
          (0 + p.length + 2)
        = encodeFrames delim ps := by
      show (p ++ encodeFrames delim ps).drop (0 + p.length) = encodeFrames delim ps
      rw [Nat.zero_add, List.drop_append_of_le_length le_rfl, List.drop_length,
        List.nil_append]
    rw [hdrop2, hgd, htake, hdropL, ih]

/-- Folding feed over a list of chunks, starting from a quiescent buffer, is
the same as one feed call on the whole remaining input. -/
lemma runFeeds_flatten (delim : ℕ) :
    ∀ (chunks : List (List ℕ)) (pkts : List (List ℕ)) (buf : List ℕ),
      feedLoop delim buf = ([], buf) →
      chunks.foldl
          (fun acc chunk =>
            let r := feedLoop delim (acc.2 ++ chunk)
            (acc.1 ++ r.1, r.2))
          (pkts, buf)
        = (pkts ++ (feedLoop delim (buf ++ chunks.flatten)).1,
            (feedLoop delim (buf ++ chunks.flatten)).2) := by
  intro chunks
  induction chunks with
  | nil =>
    intro pkts buf hq
    simp only [List.foldl_nil, List.flatten_nil, List.append_nil]
    rw [hq]
    simp
  | cons c cs ih =>
    intro pkts buf hq
    simp only [List.foldl_cons, List.flatten_cons]
    rw [ih (pkts ++ (feedLoop delim (buf ++ c)).1) (feedLoop delim (buf ++ c)).2
      (feedLoop_leftover delim (buf ++ c))]
    rw [← List.append_assoc buf c cs.flatten]
    rw [feedLoop_append delim (buf ++ c) cs.flatten]
    simp [List.append_assoc]

lemma runFeeds_eq (delim : ℕ) (chunks : List (List ℕ)) :
    runFeeds delim chunks
      = ((feedLoop delim chunks.flatten).1, (feedLoop delim chunks.flatten).2) := by
  unfold runFeeds
  rw [runFeeds_flatten delim chunks [] [] (feedLoop_nil delim)]
  simp

/-- An incomplete frame (magic byte, declared length L, fewer than L payload
bytes) produces no packet and stays buffered. -/
lemma feedLoop_withholds (delim L : ℕ) (q : List ℕ) (hq : q.length < L) :
    feedLoop delim (delim :: L :: q) = ([], delim :: L :: q) := by
  apply feedLoop_of_incomplete (byteIndexOf_self delim (L :: q))
  · simp only [List.length_cons]
    omega
  · show (delim :: L :: q).length < 0 + L + 2
    simp only [List.length_cons]
    omega

/-- A complete frame (magic byte, declared length L, exactly L payload
bytes) is emitted whole, leaving an empty buffer. -/
lemma feedLoop_whole (delim L : ℕ) (p : List ℕ) (hp : p.length = L) :
    feedLoop delim (delim :: L :: p) = ([p], []) := by
  subst hp
  have h := feedLoop_encode delim [p]
  rw [encodeFrames_cons] at h
  simpa [encodeFrames] using h

-- ==========================================================================
-- Claim C1
-- ==========================================================================

/-- C1: for every byte stream consisting of N well-formed frames and for
every way of splitting it into chunks, feeding the chunks one at a time to a
fresh MagicByteLengthParser yields, concatenated over the feed calls, the
same N packets in the same order as feeding the whole stream in one call. -/
theorem feed_chunking_invariant (delim : ℕ) (ps chunks : List (List ℕ))
    (hwf : WellFormedFrames ps)
    (hchunks : chunks.flatten = encodeFrames delim ps) :
    (runFeeds delim chunks).1 = ps
      ∧ (runFeeds delim [encodeFrames delim ps]).1 = ps
      ∧ (runFeeds delim chunks).1 = (runFeeds delim [encodeFrames delim ps]).1 := by
  have h1 : (runFeeds delim chunks).1 = ps := by
    rw [runFeeds_eq, hchunks, feedLoop_encode]
  have h2 : (runFeeds delim [encodeFrames delim ps]).1 = ps := by
    rw [runFeeds_eq]
    simp only [List.flatten_cons, List.flatten_nil, List.append_nil]
    rw [feedLoop_encode]
  exact ⟨h1, h2, h1.trans h2.symm⟩

theorem feed_chunking_invariant_witness :
    (runFeeds 130 [[130, 2], [1, 2, 130], [1, 3]]).1 = [[1, 2], [3]]
      ∧ (runFeeds 130 [encodeFrames 130 [[1, 2], [3]]]).1 = [[1, 2], [3]]
      ∧ (runFeeds 130 [[130, 2], [1, 2, 130], [1, 3]]).1
          = (runFeeds 130 [encodeFrames 130 [[1, 2], [3]]]).1 :=
  feed_chunking_invariant 130 [[1, 2], [3]] [[130, 2], [1, 2, 130], [1, 3]]
    (by decide) (by decide)

-- ==========================================================================
-- Claim C2
-- ==========================================================================

/-- C2: feed never returns a partial packet: after any number of complete
well-formed frames, a trailing frame declaring length L with fewer than L
payload bytes yields nothing for that frame and stays buffered; once exactly
L payload bytes are present the frame is emitted whole (with its L payload
bytes); in particular feed(bytes([0x82, 0x03]) + b"abc") on a fresh parser
with magic byte 0x82 returns [b"abc"]. -/
theorem feed_no_partial_packet :
    (∀ (delim L : ℕ) (ps : List (List ℕ)) (q : List ℕ),
        WellFormedFrames ps → q.length < L →
        feedLoop delim (encodeFrames delim ps ++ delim :: L :: q)
          = (ps, delim :: L :: q))
    ∧ (∀ (delim L : ℕ) (p : List ℕ), p.length = L →
        feedLoop delim (delim :: L :: p) = ([p], []))
    ∧ MagicByteLengthParser.feed ⟨0x82, []⟩ [0x82, 0x03, 97, 98, 99]
        = ([[97, 98, 99]], ⟨0x82, []⟩) := by
  refine ⟨?_, ?_, by decide⟩
  · intro delim L ps q _hwf hq
    rw [feedLoop_append delim (encodeFrames delim ps) (delim :: L :: q)]
    rw [feedLoop_encode]
    simp only [List.nil_append]
    rw [feedLoop_withholds delim L q hq]
    simp
  · intro delim L p hp
    exact feedLoop_whole delim L p hp

theorem feed_no_partial_packet_witness :
    feedLoop 130 (encodeFrames 130 [[7]] ++ 130 :: 5 :: [9, 9])
        = ([[7]], 130 :: 5 :: [9, 9])
      ∧ feedLoop 130 (130 :: 3 :: [97, 98, 99]) = ([[97, 98, 99]], []) :=
  ⟨feed_no_partial_packet.1 130 5 [[7]] [9, 9] (by decide) (by decide),
    feed_no_partial_packet.2.1 130 3 [97, 98, 99] (by decide)⟩

-- ==========================================================================
-- Claim C3
-- ==========================================================================

/-- C3 counterexample: a device with one pending transaction (readyDevice
with pending = [5]).  LoupedeckDevice.close leaves the transaction in
pending_transactions: it is neither resolved nor discarded, so close does
not destroy all N pending transactions. -/
theorem close_keeps_pending_cex :
    (DeviceModel.close pendingDevice).pending = [5]
      ∧ (DeviceModel.close pendingDevice).pending ≠ [] := by
  constructor <;> decide

/-- C3 amended: close cancels the reconnect task, disables reconnection,
detaches the connection handlers and clears the connection, so after close
no message delivery runs on_receive and no pending-transaction continuation
fires; but close leaves pending_transactions untouched: the pending
transactions are neither resolved nor discarded. -/
theorem close_detaches_but_keeps_pending (d : DeviceModel) (data : List ℕ) :
    (DeviceModel.close d).pending = d.pending
      ∧ (DeviceModel.close d).transactionId = d.transactionId
      ∧ (DeviceModel.close d).connection = none
      ∧ (DeviceModel.close d).reconnectTask = false
      ∧ (DeviceModel.close d).shouldReconnect = false
      ∧ DeviceModel.deliver (DeviceModel.close d) data
          = .ok (DeviceModel.close d, []) :=
  ⟨rfl, rfl, rfl, rfl, rfl, rfl⟩

-- ==========================================================================
-- Claim C4
-- ==========================================================================

/-- C4 counterexample: LoupedeckWSConnection.send on a not-ready connection
does not raise: it returns normally having written nothing, silently
dropping the data. -/
theorem ws_send_silent_drop_cex :
    wsSend false [1, 2, 3] = Except.ok []
      ∧ (wsSend false [1, 2, 3]).isOk = true := by
  constructor <;> rfl

/-- C4 amended: the serial connection's send fails fast with CommandError
when no connection object exists and performs no write, but the WebSocket
connection's send on a not-ready connection does not raise: it returns
normally and silently writes nothing. -/
theorem send_not_ready_by_transport :
    (∀ (buff : List ℕ) (raw : Bool),
        serialSend none buff raw = .error .commandError)
      ∧ (∀ data : List ℕ, wsSend false data = .ok []) :=
  ⟨fun _ _ => rfl, fun _ => rfl⟩

-- ==========================================================================
-- Claim C5
-- ==========================================================================

/-- C5: transaction ids of consecutive successful sends cycle through
1..255 and never take the value 0: a successful send returns
nextTransactionId of the stored id and stores it back; iterating from a
fresh device (id 0), the (n+1)-st send returns n % 255 + 1 (so the first
send returns 1); nextTransactionId is never 0, ids up to 254 are followed
by their successor, and 255 is followed by 1. -/
theorem send_transaction_id_cycles :
    (∀ (d : DeviceModel) (c : ConnModel) (command : ℕ) (data : List ℕ),
        d.connection = some c → c.ready = true →
        (d.send command data).2.2 = .ok (nextTransactionId d.transactionId)
          ∧ (d.send command data).1.transactionId
              = nextTransactionId d.transactionId)
      ∧ (∀ n : ℕ, nextTransactionId^[n + 1] 0 = n % 255 + 1)
      ∧ (∀ t : ℕ, nextTransactionId t ≠ 0)
      ∧ (∀ t : ℕ, t ≤ 254 → nextTransactionId t = t + 1)
      ∧ nextTransactionId 255 = 1 := by
  refine ⟨?_, ?_, ?_, ?_, by decide⟩
  · intro d c command data hc hr
    unfold DeviceModel.send
    rw [hc]
    simp [hr]
  · intro n
    induction n with
    | zero => decide
    | succ n ih =>
      rw [Function.iterate_succ_apply', ih]
      unfold nextTransactionId
      split
      · omega
      · omega
  · intro t
    unfold nextTransactionId
    split
    · omega
    · omega
  · intro t ht
    unfold nextTransactionId
    split
    · omega
    · omega

theorem send_transaction_id_cycles_witness :
    (readyDevice.send 7 [1]).2.2
        = .ok (nextTransactionId readyDevice.transactionId)
      ∧ (readyDevice.send 7 [1]).1.transactionId
          = nextTransactionId readyDevice.transactionId :=
  send_transaction_id_cycles.1 readyDevice { ready := true, msgAttached := true }
    7 [1] rfl rfl

-- ==========================================================================
-- Claim C6
-- ==========================================================================

/-- C6: LoupedeckDevice.send with no connection, or with a connection whose
is_ready() is false, raises CommandError, performs no channel write and
leaves the device state unchanged. -/
theorem send_not_ready_raises (d : DeviceModel) (command : ℕ) (data : List ℕ)
    (h : d.connection = none ∨ ∃ c, d.connection = some c ∧ c.ready = false) :
    d.send command data = (d, [], .error .commandError) := by
  rcases h with h | ⟨c, hc, hr⟩
  · unfold DeviceModel.send
    rw [h]
  · unfold DeviceModel.send
    rw [hc]
    simp [hr]

theorem send_not_ready_raises_witness :
    notReadyDevice.send 2 [5] = (notReadyDevice, [], .error .commandError) :=
  send_not_ready_raises notReadyDevice 2 [5] (Or.inr ⟨_, rfl, rfl⟩)

-- ==========================================================================
-- Claim C7
-- ==========================================================================

/-- C7: for every incoming message of at least 3 bytes, a command code
absent from the handler table together with a transaction id absent from
pending_transactions is silently ignored: on_receive returns ok with no
effect and unchanged state; and the payload on_receive passes to handlers
and resolvers is the slice data[3:msg_length], whose length never exceeds
the declared frame length minus the 3 header bytes. -/
theorem on_receive_ignores_unknown :
    (∀ (d : DeviceModel) (data : List ℕ), 3 ≤ data.length →
        data.getD 1 0 ≠ d.buttonPressCode → data.getD 1 0 ≠ d.knobRotateCode →
        d.pending.contains (data.getD 2 0) = false →
        d.on_receive data = .ok (d, []))
      ∧ (∀ data : List ℕ, (recvPayload data).length ≤ data.headD 0 - 3) := by
  constructor
  · intro d data hlen hbp hkr hpend
    match data, hlen with
    | a :: b :: c :: rest, _ =>
      have hb' : b ≠ d.knobRotateCode := by simpa using hkr
      have hb2 : b ≠ d.buttonPressCode := by simpa using hbp
      have hc' : ¬ (d.pending.contains c = true) := by
        simpa using hpend
      show DeviceModel.on_receive d (a :: b :: c :: rest) = .ok (d, [])
      unfold DeviceModel.on_receive
      simp only [if_neg hb', if_neg hb2, if_neg hc']
  · intro data
    unfold recvPayload
    rw [List.length_drop, List.length_take]
    exact Nat.sub_le_sub_right (Nat.min_le_left _ _) 3

theorem on_receive_ignores_unknown_witness :
    DeviceModel.on_receive readyDevice [5, 9, 4, 1, 2] = .ok (readyDevice, []) :=
  on_receive_ignores_unknown.1 readyDevice [5, 9, 4, 1, 2]
    (by decide) (by decide) (by decide) (by decide)

-- ==========================================================================
-- Claim C10
-- ==========================================================================

/-- C10: on_receive guards only the empty message: every non-empty message
shorter than 3 bytes hits an uncaught IndexError when reading the command
code or transaction id; an empty message, or any message of at least 3
bytes, returns without raising. -/
theorem on_receive_short_message_raises :
    (∀ (d : DeviceModel) (data : List ℕ), data ≠ [] → data.length < 3 →
        d.on_receive data = .error .indexError)
      ∧ (∀ (d : DeviceModel) (data : List ℕ), data = [] ∨ 3 ≤ data.length →
          (d.on_receive data).isOk = true) := by
  constructor
  · intro d data hne hlt
    match data with
    | [] => exact absurd rfl hne
    | [a] => rfl
    | [a, b] => rfl
    | a :: b :: c :: rest =>
      simp only [List.length_cons] at hlt
      omega
  · intro d data h
    rcases h with rfl | hge
    · rfl
    · match data, hge with
      | a :: b :: c :: rest, _ =>
        show (DeviceModel.on_receive d (a :: b :: c :: rest)).isOk = true
        unfold DeviceModel.on_receive
        by_cases hp : d.pending.contains c = true
        · simp only [if_pos hp]
          rfl
        · simp only [if_neg hp]
          rfl

theorem on_receive_short_message_raises_witness :
    DeviceModel.on_receive readyDevice [1] = .error .indexError :=
  on_receive_short_message_raises.1 readyDevice [1] (by decide) (by decide)

-- ==========================================================================
-- Claim C8
-- ==========================================================================

/-- C8 counterexample: x = 480 lies outside the visible region declared by
LoupedeckLive (visibleX = (0, 480)), yet LoupedeckLive.get_target does not
reject it: it returns the right screen. -/
theorem get_target_no_rejection_cex :
    ¬ (LoupedeckLive.visibleX.1 ≤ 480 ∧ (480 : ℤ) < LoupedeckLive.visibleX.2)
      ∧ LoupedeckLive.get_target 480 0 = TargetRes.screen ScreenName.right
      ∧ LoupedeckLive.get_target 480 0 ≠ TargetRes.empty := by
  refine ⟨?_, ?_, ?_⟩ <;> decide

/-- C8 amended: only LoupedeckLiveS's rule rejects out-of-region
coordinates (x outside visibleX yields the empty target); LoupedeckLive
(and so LoupedeckCT) assigns every x to the left, right or center region by
boundary comparison alone, never rejecting; for the center grid both
variants compute row and column by truncated division of the adjusted
coordinates by the key size and return key = row * columns + column; and
LoupedeckCT returns the knob screen for source id 0 before any grid
computation, deferring to the LoupedeckLive rule otherwise. -/
theorem get_target_region_rules :
    (∀ x y : ℤ, x < LoupedeckLiveS.visibleX.1 ∨ LoupedeckLiveS.visibleX.2 ≤ x →
        LoupedeckLiveS.get_target x y = TargetRes.empty)
      ∧ (∀ x y : ℤ, LoupedeckLiveS.visibleX.1 ≤ x → x < LoupedeckLiveS.visibleX.2 →
          LoupedeckLiveS.get_target x y
            = TargetRes.screenKey ScreenName.center
                (y.tdiv LoupedeckLiveS.key_size * LoupedeckLiveS.columns
                  + (x - LoupedeckLiveS.visibleX.1).tdiv LoupedeckLiveS.key_size))
      ∧ (∀ x y : ℤ, x < LoupedeckLive.leftWidth →
          LoupedeckLive.get_target x y = TargetRes.screen ScreenName.left)
      ∧ (∀ x y : ℤ, LoupedeckLive.leftWidth + LoupedeckLive.centerWidth ≤ x →
          LoupedeckLive.get_target x y = TargetRes.screen ScreenName.right)
      ∧ (∀ x y : ℤ, LoupedeckLive.leftWidth ≤ x →
          x < LoupedeckLive.leftWidth + LoupedeckLive.centerWidth →
          LoupedeckLive.get_target x y
            = TargetRes.screenKey ScreenName.center
                (y.tdiv LoupedeckLive.key_size * LoupedeckLive.columns
                  + (x - LoupedeckLive.leftWidth).tdiv LoupedeckLive.key_size))
      ∧ (∀ (x y : ℤ) (id : Option ℤ),
          LoupedeckCT.get_target x y (some 0) = TargetRes.screen ScreenName.knob
            ∧ (id ≠ some 0 →
                LoupedeckCT.get_target x y id = LoupedeckLive.get_target x y)) := by
  refine ⟨?_, ?_, ?_, ?_, ?_, ?_⟩
  · intro x y h
    unfold LoupedeckLiveS.get_target
    rw [if_pos h]
  · intro x y h1 h2
    unfold LoupedeckLiveS.get_target
    rw [if_neg (by simp only [not_or, not_lt, not_le]; exact ⟨h1, h2⟩)]
  · intro x y h
    unfold LoupedeckLive.get_target
    rw [if_pos h]
  · intro x y h
    unfold LoupedeckLive.get_target
    rw [if_neg (by simp only [not_lt]; unfold LoupedeckLive.leftWidth at h ⊢
          <;> unfold LoupedeckLive.centerWidth at h; omega),
      if_pos h]
  · intro x y h1 h2
    unfold LoupedeckLive.get_target
    rw [if_neg (by simp only [not_lt]; exact h1), if_neg (by simp only [not_le]; exact h2)]
  · intro x y id
    constructor
    · unfold LoupedeckCT.get_target
      rw [if_pos rfl]
    · intro hid
      unfold LoupedeckCT.get_target
      rw [if_neg hid]

theorem get_target_region_rules_witness :
    LoupedeckLiveS.get_target 0 0 = TargetRes.empty
      ∧ LoupedeckLive.get_target 0 0 = TargetRes.screen ScreenName.left :=
  ⟨get_target_region_rules.1 0 0 (by decide),
    get_target_region_rules.2.2.1 0 0 (by decide)⟩

-- ==========================================================================
-- Claim C9
-- ==========================================================================

lemma pyRound_intCast (n : ℤ) : pyRound (n : ℚ) = n := by
  unfold pyRound
  rw [Int.floor_intCast]
  rw [if_pos (by norm_num)]

lemma pyRound_bounds (q : ℚ) : ⌊q⌋ ≤ pyRound q ∧ pyRound q ≤ ⌊q⌋ + 1 := by
  unfold pyRound
  split
  · exact ⟨le_rfl, by omega⟩
  · split
    · exact ⟨by omega, le_rfl⟩
    · split
      · exact ⟨le_rfl, by omega⟩
      · exact ⟨by omega, le_rfl⟩

/-- C9: set_brightness quantizes to the device's integer brightness range
and clamps rather than wraps: with the device's brightness maximum M ≥ 1,
input 0 encodes byte 0, input 1 encodes the maximum byte M, every input
below 0 encodes 0 and every input above 1 encodes M. -/
theorem set_brightness_clamps (M : ℕ) (hM : 1 ≤ M) :
    brightnessByte M 0 = 0
      ∧ brightnessByte M 1 = M
      ∧ (∀ q : ℚ, q < 0 → brightnessByte M q = 0)
      ∧ (∀ q : ℚ, 1 < q → brightnessByte M q = M) := by
  have hM0 : (0 : ℚ) < M := by exact_mod_cast Nat.lt_of_lt_of_le Nat.zero_lt_one hM
  have hMZ : (0 : ℤ) ≤ (M : ℤ) := Int.natCast_nonneg M
  refine ⟨?_, ?_, ?_, ?_⟩
  · unfold brightnessByte
    rw [zero_mul, show (0 : ℚ) = ((0 : ℤ) : ℚ) by norm_num, pyRound_intCast,
      min_eq_right hMZ, max_self]
  · unfold brightnessByte
    rw [one_mul, show ((M : ℕ) : ℚ) = (((M : ℕ) : ℤ) : ℚ) by push_cast; ring,
      pyRound_intCast, min_self, max_eq_right hMZ]
  · intro q hq
    unfold brightnessByte
    have hx : q * M < 0 := mul_neg_of_neg_of_pos hq hM0
    have hfl : ⌊q * (M : ℚ)⌋ < 0 := Int.floor_lt.mpr (by exact_mod_cast hx)
    have hpr := pyRound_bounds (q * M)
    rw [min_eq_right (by omega), max_eq_left (by omega)]
  · intro q hq
    unfold brightnessByte
    have hx : (M : ℚ) < q * M := by
      have h1 := mul_lt_mul_of_pos_right hq hM0
      rwa [one_mul] at h1
    have hfl : (M : ℤ) ≤ ⌊q * (M : ℚ)⌋ := Int.le_floor.mpr (by exact_mod_cast hx.le)
    have hpr := pyRound_bounds (q * M)
    rw [min_eq_left (by omega), max_eq_right hMZ]

theorem set_brightness_clamps_witness :
    brightnessByte 10 0 = 0
      ∧ brightnessByte 10 1 = (10 : ℕ)
      ∧ brightnessByte 10 (-2) = 0
      ∧ brightnessByte 10 (3 / 2) = (10 : ℕ) :=
  ⟨(set_brightness_clamps 10 (by norm_num)).1,
    (set_brightness_clamps 10 (by norm_num)).2.1,
    (set_brightness_clamps 10 (by norm_num)).2.2.1 (-2) (by norm_num),
    (set_brightness_clamps 10 (by norm_num)).2.2.2 (3 / 2) (by norm_num)⟩
